import Mathlib

/-!
Verification of the elerojs protocol codec (`src/protocol.js`) and command
dispatcher (`src/stick.js`).  Bytes are modelled as `Nat` values; the
truncation that `Buffer.from` performs on each element is made explicit as
`% 256` where the source relies on it.
-/

namespace Elero

/-- Frame header constant (`HEADER` in protocol.js). -/
def HEADER : Nat := 0xaa

/-- Command byte for easy_check (host → stick). -/
def CMD_EASY_CHECK : Nat := 0x4a

/-- Command byte for easy_info (host → stick). -/
def CMD_EASY_INFO : Nat := 0x4e

/-- Command byte for easy_send (host → stick). -/
def CMD_EASY_SEND : Nat := 0x4c

/-- Response byte for easy_confirm (stick → host). -/
def RSP_EASY_CONFIRM : Nat := 0x4b

/-- Response byte for easy_ack (stick → host). -/
def RSP_EASY_ACK : Nat := 0x4d

/-- `checksum(bytes)` from protocol.js: `(256 - (sum % 256)) % 256`. -/
def checksum (bytes : List Nat) : Nat :=
  (256 - (bytes.sum % 256)) % 256

/-- `channelToBytes(channel)` from protocol.js.  The JavaScript function
throws a `RangeError` for channels outside 1..15; the throw is modelled as
`none`. -/
def channelToBytes (channel : Nat) : Option (Nat × Nat) :=
  if channel < 1 ∨ 15 < channel then none
  else if channel ≤ 8 then some (0x00, 1 <<< (channel - 1))
  else some (1 <<< (channel - 9), 0x00)

/-- The `while (n !== 1 && channel <= 15)` loop of `bytesToChannel`,
written with explicit fuel so that it is structurally recursive.  The loop
body runs at most 15 times (the `channel <= 15` guard), so any fuel of at
least 15 makes this identical to the source loop. -/
def bytesToChannelLoop : Nat → Nat → Nat → Nat
  | 0, _, channel => channel
  | fuel + 1, n, channel =>
    if n ≠ 1 ∧ channel ≤ 15 then bytesToChannelLoop fuel (n / 2) (channel + 1)
    else channel

/-- `bytesToChannel(high, low)` from protocol.js: returns the channel
number 1..15 if exactly one bit of `(high << 8) | low` is set among bits
0–14, otherwise 0. -/
def bytesToChannel (high low : Nat) : Nat :=
  let word := (high <<< 8) ||| low
  let channel := bytesToChannelLoop 16 word 1
  if channel ≤ 15 ∧ word &&& (word - 1) = 0 then channel else 0

/-- `bitmapToChannels(high, low)` from protocol.js: every set bit among
bits 0–14 maps to channel `i + 1`, ascending. -/
def bitmapToChannels (high low : Nat) : List Nat :=
  let word := (high <<< 8) ||| low
  (List.range 15).filterMap fun i =>
    if word &&& (1 <<< i) ≠ 0 then some (i + 1) else none

/-- `buildFrame(cmd, payloadBytes)` from protocol.js.  `Buffer.from`
truncates each element to a byte, hence the `% 256`. -/
def buildFrame (cmd : Nat) (payloadBytes : List Nat) : List Nat :=
  let body := (cmd :: payloadBytes).map (· % 256)
  let length := body.length + 1
  let all := HEADER :: (length % 256) :: body
  all ++ [checksum all]

/-- Result of `parseFrame`: the source returns `{ cmd: body[0], payload:
body.subarray(1) }`; `body[0]` is `undefined` when `body` is empty, which
is modelled with `Option`. -/
structure ParsedFrame where
  cmd : Option Nat
  payload : List Nat
deriving DecidableEq, Repr

/-- `parseFrame(buffer)` from protocol.js: needs ≥ 3 bytes, reads the
length field at index 1, needs the full `2 + len` bytes, and compares the
trailing byte against the checksum of everything before it. -/
def parseFrame (buffer : List Nat) : Option ParsedFrame :=
  if buffer.length < 3 then none
  else
    let len := buffer.getD 1 0
    let total := 2 + len
    if buffer.length < total then none
    else
      let frame := buffer.take total
      let body := (frame.drop 2).take (total - 1 - 2)
      let receivedChecksum := frame.getD (total - 1) 0
      let expectedChecksum := checksum (frame.take (total - 1))
      if receivedChecksum ≠ expectedChecksum then none
      else some ⟨body.head?, body.drop 1⟩

/-- `buildEasyCheck()` from protocol.js. -/
def buildEasyCheck : List Nat :=
  buildFrame CMD_EASY_CHECK []

/-- `buildEasyInfo(channel)` from protocol.js; `none` models the
`RangeError` thrown by `channelToBytes`. -/
def buildEasyInfo (channel : Nat) : Option (List Nat) :=
  (channelToBytes channel).map fun hl => buildFrame CMD_EASY_INFO [hl.1, hl.2]

/-- `buildEasySend(channel, payloadByte)` from protocol.js; `none` models
the `RangeError` thrown by `channelToBytes`. -/
def buildEasySend (channel payloadByte : Nat) : Option (List Nat) :=
  (channelToBytes channel).map fun hl =>
    buildFrame CMD_EASY_SEND [hl.1, hl.2, payloadByte]

example : checksum [0xaa, 0x02, 0x4a] = 0x0a := by decide
example : buildFrame 0x4a [] = [0xaa, 0x02, 0x4a, 0x0a] := by decide
example : bytesToChannel 0 4 = 3 := by decide
example : bytesToChannel 1 0 = 9 := by decide
example : bytesToChannel 0 5 = 0 := by decide
example : bitmapToChannels 0 5 = [1, 3] := by decide
example : parseFrame (buildFrame 0x4e [0, 1]) = some ⟨some 0x4e, [0, 1]⟩ := by
  decide

/-- Mapping `% 256` over a list of bytes is the identity. -/
theorem map_mod_eq_self (l : List Nat) (h : ∀ b ∈ l, b < 256) :
    l.map (· % 256) = l := by
  induction l with
  | nil => rfl
  | cons x xs ih =>
    simp only [List.map_cons, List.cons.injEq]
    constructor
    · exact Nat.mod_eq_of_lt (h x (by simp))
    · exact ih fun b hb => h b (by simp [hb])

/-- Shape of a built frame when the command is a byte, the payload is a
list of bytes and the length field does not wrap: header, length byte,
command, payload, checksum. -/
theorem buildFrame_eq (cmd : Nat) (payload : List Nat) (hc : cmd < 256)
    (hp : ∀ b ∈ payload, b < 256) (hl : payload.length ≤ 253) :
    buildFrame cmd payload =
      HEADER :: (payload.length + 2) :: cmd :: payload ++
        [checksum (HEADER :: (payload.length + 2) :: cmd :: payload)] := by
  have hmap : (cmd :: payload).map (· % 256) = cmd :: payload := by
    apply map_mod_eq_self
    intro b hb
    rcases List.mem_cons.mp hb with rfl | hb
    · exact hc
    · exact hp b hb
  have hmod : (payload.length + 1 + 1) % 256 = payload.length + 2 := by
    have : payload.length + 1 + 1 < 256 := by omega
    omega
  unfold buildFrame
  dsimp only
  rw [hmap]
  simp only [List.length_cons, hmod]

/-- Round-trip of the codec: parsing a built frame recovers the command
and payload, provided everything fits in bytes and the length field does
not wrap. -/
theorem parse_build (cmd : Nat) (payload : List Nat) (hc : cmd < 256)
    (hp : ∀ b ∈ payload, b < 256) (hl : payload.length ≤ 253) :
    parseFrame (buildFrame cmd payload) = some ⟨some cmd, payload⟩ := by
  rw [buildFrame_eq cmd payload hc hp hl]
  set p := payload.length with hpdef
  set all := HEADER :: (p + 2) :: cmd :: payload with halldef
  set csum := checksum all with hcsumdef
  have hframe : all ++ [csum] = HEADER :: (p + 2) :: cmd :: (payload ++ [csum]) := by
    simp [halldef]
  have hlen : (all ++ [csum]).length = p + 4 := by simp [halldef]
  have hgd1 : (all ++ [csum]).getD 1 0 = p + 2 := by
    rw [hframe]; rfl
  have htake : (all ++ [csum]).take (2 + (p + 2)) = all ++ [csum] := by
    apply List.take_of_length_le; omega
  have hbody : ((all ++ [csum]).drop 2).take (2 + (p + 2) - 1 - 2) =
      cmd :: payload := by
    rw [hframe]
    show (cmd :: (payload ++ [csum])).take (2 + (p + 2) - 1 - 2) = cmd :: payload
    have h2 : 2 + (p + 2) - 1 - 2 = p + 1 := by omega
    rw [h2, List.take_succ_cons]
    congr 1
    rw [hpdef]
    exact List.take_left payload [csum]
  have hrecv : (all ++ [csum]).getD (2 + (p + 2) - 1) 0 = csum := by
    have h1 : 2 + (p + 2) - 1 = all.length := by simp [halldef]; omega
    rw [h1, List.getD_eq_getElem?_getD, List.getElem?_append_right (le_refl _)]
    simp
  have hexp : (all ++ [csum]).take (2 + (p + 2) - 1) = all := by
    have h1 : 2 + (p + 2) - 1 = all.length := by simp [halldef]; omega
    rw [h1]
    exact List.take_left all [csum]
  rw [parseFrame]
  dsimp only
  rw [hgd1]
  rw [if_neg (by rw [hlen]; omega : ¬(all ++ [csum]).length < 3)]
  rw [if_neg (by rw [hlen]; omega : ¬(all ++ [csum]).length < 2 + (p + 2))]
  rw [htake, hbody, hrecv, hexp]
  rw [if_neg (by simp [hcsumdef])]
  simp

/-- C1: the claim says `buildFrame(0x4A, [])` is `AA 02 4A 9C`, i.e. that
the checksum of `[0xAA, 0x02, 0x4A]` is `0x9C`.  The sum of those bytes is
246, so the checksum under `(256 - sum % 256) % 256` is `0x0A`, not
`0x9C`; the built frame is `AA 02 4A 0A`. -/
theorem c1_counterexample :
    checksum [0xaa, 0x02, 0x4a] ≠ 0x9c ∧
      buildFrame 0x4a [] ≠ [0xaa, 0x02, 0x4a, 0x9c] := by decide

/-- C1 (amended): `buildFrame(0x4A, [])` returns exactly the four bytes
`AA 02 4A 0A`; the checksum byte of the frame `[0xAA, 0x02, 0x4A]` equals
`0x0A` under `checksum(bytes) = (256 - sum(bytes) % 256) % 256`. -/
theorem c1_buildFrame_easy_check :
    buildFrame 0x4a [] = [0xaa, 0x02, 0x4a, 0x0a] ∧
      checksum [0xaa, 0x02, 0x4a] = 0x0a := by decide

set_option maxRecDepth 4000 in
/-- C6: the claim says the round-trip holds for every payload, but the
length field is a single byte: for a 254-byte payload the length
`254 + 2 = 256` is truncated to `0` by `Buffer.from`, and `parseFrame`
then rejects the resulting frame instead of returning the payload. -/
theorem c6_counterexample :
    parseFrame (buildFrame 0x4a (List.replicate 254 0)) = none ∧
      ∀ b ∈ List.replicate 254 (0 : Nat), b < 256 := by decide

/-- C6 (amended): for every command byte `cmd < 256` and every payload of
bytes with at most 253 entries (so that the one-byte length field does not
wrap), `parseFrame (buildFrame cmd payload)` succeeds and returns exactly
the command and the payload. -/
theorem c6_parse_build_roundtrip (cmd : Nat) (payload : List Nat)
    (hc : cmd < 256) (hp : ∀ b ∈ payload, b < 256)
    (hl : payload.length ≤ 253) :
    parseFrame (buildFrame cmd payload) = some ⟨some cmd, payload⟩ :=
  parse_build cmd payload hc hp hl

/-- Witness for C6: the round-trip at the concrete easy_info frame for
channel 1. -/
theorem c6_witness :
    parseFrame (buildFrame 0x4e [0x00, 0x01]) = some ⟨some 0x4e, [0x00, 0x01]⟩ :=
  c6_parse_build_roundtrip 0x4e [0x00, 0x01] (by decide) (by decide) (by decide)

/-- C7: for every channel 1..15, decoding the single-bit bitmap produced
by `channelToBytes` with `bytesToChannel` gives back the channel. -/
theorem c7_channel_roundtrip (c : Nat) (h1 : 1 ≤ c) (h2 : c ≤ 15) :
    (channelToBytes c).map (fun hl => bytesToChannel hl.1 hl.2) = some c := by
  interval_cases c <;> decide

/-- Witness for C7: the round-trip at channel 9 (high-byte encoding). -/
theorem c7_witness :
    (channelToBytes 9).map (fun hl => bytesToChannel hl.1 hl.2) = some 9 :=
  c7_channel_roundtrip 9 (by decide) (by decide)

/-- Replacing an element adds the new value and removes the old one from
the sum. -/
theorem sum_set (l : List Nat) (i b : Nat) (h : i < l.length) :
    (l.set i b).sum + l.getD i 0 = l.sum + b := by
  induction l generalizing i with
  | nil => simp at h
  | cons x xs ih =>
    cases i with
    | zero => simp [List.getD]; omega
    | succ n =>
      simp only [List.set, List.sum_cons, List.getD_cons_succ]
      have := ih n (by simpa using h)
      omega

/-- `set` at one index leaves `getD` at another index unchanged. -/
theorem getD_set_ne (l : List Nat) (i j b d : Nat) (h : i ≠ j) :
    (l.set i b).getD j d = l.getD j d := by
  simp [List.getD_eq_getElem?_getD, List.getElem?_set_ne h]

/-- `getD` inside the left part of an append. -/
theorem getD_append_left (l l' : List Nat) (j d : Nat) (h : j < l.length) :
    (l ++ l').getD j d = l.getD j d := by
  simp [List.getD_eq_getElem?_getD, List.getElem?_append_left h]

/-- `getD` at the position of a single appended element. -/
theorem getD_append_last (l : List Nat) (a d : Nat) :
    (l ++ [a]).getD l.length d = a := by
  rw [List.getD_eq_getElem?_getD, List.getElem?_append_right (le_refl _)]
  simp

/-- `set` at the position of a single appended element. -/
theorem set_append_last (l : List Nat) (a b : Nat) :
    (l ++ [a]).set l.length b = l ++ [b] := by
  rw [List.set_append_right]
  · simp
  · omega

/-- Every byte of a built frame is below 256 (header, length byte,
command, payload bytes and checksum). -/
theorem buildFrame_mem_lt (cmd : Nat) (payload : List Nat) (hc : cmd < 256)
    (hp : ∀ b ∈ payload, b < 256) (hl : payload.length ≤ 253) :
    ∀ x ∈ buildFrame cmd payload, x < 256 := by
  rw [buildFrame_eq cmd payload hc hp hl]
  intro x hx
  simp only [List.cons_append, List.mem_cons, List.mem_append,
    List.mem_singleton] at hx
  rcases hx with rfl | rfl | rfl | hx | rfl | h
  · decide
  · omega
  · exact hc
  · exact hp x hx
  · exact Nat.mod_lt _ (by omega)
  · simp at h

/-- Corrupting a built frame at any single position other than the length
byte (index 1) makes `parseFrame` reject it. -/
theorem parse_build_set (cmd : Nat) (payload : List Nat) (hc : cmd < 256)
    (hp : ∀ b ∈ payload, b < 256) (hl : payload.length ≤ 253)
    (i b : Nat) (hi : i < (buildFrame cmd payload).length) (hne1 : i ≠ 1)
    (hb : b < 256) (hbne : b ≠ (buildFrame cmd payload).getD i 0) :
    parseFrame ((buildFrame cmd payload).set i b) = none := by
  rw [buildFrame_eq cmd payload hc hp hl] at hi hbne ⊢
  set p := payload.length with hpdef
  set all := HEADER :: (p + 2) :: cmd :: payload with halldef
  set csum := checksum all with hcsumdef
  have halllen : all.length = p + 3 := by simp [halldef]
  have hlen : (all ++ [csum]).length = p + 4 := by simp [halldef]
  have hcsumlt : csum < 256 := by
    rw [hcsumdef]; exact Nat.mod_lt _ (by omega)
  rw [hlen] at hi
  by_cases hcase : i = p + 3
  · -- the corrupted byte is the checksum byte
    subst hcase
    have hset : (all ++ [csum]).set (p + 3) b = all ++ [b] := by
      have := set_append_last all csum b
      rwa [halllen] at this
    have hgd : (all ++ [csum]).getD (p + 3) 0 = csum := by
      have := getD_append_last all csum 0
      rwa [halllen] at this
    rw [hgd] at hbne
    rw [hset]
    have hframe : all ++ [b] = HEADER :: (p + 2) :: cmd :: (payload ++ [b]) := by
      simp [halldef]
    have hlen' : (all ++ [b]).length = p + 4 := by simp [halldef]
    have hgd1 : (all ++ [b]).getD 1 0 = p + 2 := by rw [hframe]; rfl
    have htake : (all ++ [b]).take (2 + (p + 2)) = all ++ [b] := by
      apply List.take_of_length_le; omega
    have hrecv : (all ++ [b]).getD (2 + (p + 2) - 1) 0 = b := by
      have h1 : 2 + (p + 2) - 1 = all.length := by omega
      rw [h1]; exact getD_append_last all b 0
    have hexp : (all ++ [b]).take (2 + (p + 2) - 1) = all := by
      have h1 : 2 + (p + 2) - 1 = all.length := by omega
      rw [h1]; exact List.take_left all [b]
    rw [parseFrame]
    dsimp only
    rw [hgd1]
    rw [if_neg (by rw [hlen']; omega : ¬(all ++ [b]).length < 3)]
    rw [if_neg (by rw [hlen']; omega : ¬(all ++ [b]).length < 2 + (p + 2))]
    rw [htake, hrecv, hexp]
    rw [if_pos (by rw [← hcsumdef]; exact hbne)]
  · -- the corrupted byte is before the checksum byte
    have hilt : i < all.length := by omega
    have hset : (all ++ [csum]).set i b = all.set i b ++ [csum] :=
      List.set_append_left i b hilt
    have hgdF : (all ++ [csum]).getD i 0 = all.getD i 0 :=
      getD_append_left all [csum] i 0 hilt
    rw [hgdF] at hbne
    rw [hset]
    set all' := all.set i b with hallset
    have hlen'' : all'.length = p + 3 := by
      rw [hallset, List.length_set, halllen]
    have hlen' : (all' ++ [csum]).length = p + 4 := by
      simp [hlen'']
    have hgd1 : (all' ++ [csum]).getD 1 0 = p + 2 := by
      rw [getD_append_left _ _ _ _ (by omega), hallset,
        getD_set_ne _ _ _ _ _ hne1]
      rw [halldef]; rfl
    have htake : (all' ++ [csum]).take (2 + (p + 2)) = all' ++ [csum] := by
      apply List.take_of_length_le; omega
    have hrecv : (all' ++ [csum]).getD (2 + (p + 2) - 1) 0 = csum := by
      have h1 : 2 + (p + 2) - 1 = all'.length := by omega
      rw [h1]; exact getD_append_last all' csum 0
    have hexp : (all' ++ [csum]).take (2 + (p + 2) - 1) = all' := by
      have h1 : 2 + (p + 2) - 1 = all'.length := by omega
      rw [h1]; exact List.take_left all' [csum]
    have hsum : all'.sum + all.getD i 0 = all.sum + b :=
      sum_set all i b hilt
    have helem : all.getD i 0 < 256 := by
      rw [List.getD_eq_getElem all 0 hilt]
      have hmem : all[i] ∈ all := List.getElem_mem hilt
      have hmem' : all[i] ∈ buildFrame cmd payload := by
        rw [buildFrame_eq cmd payload hc hp hl]
        rw [← halldef, ← hcsumdef]
        exact List.mem_append.mpr (Or.inl hmem)
      exact buildFrame_mem_lt cmd payload hc hp hl _ hmem'
    have hcsne : csum ≠ checksum all' := by
      rw [hcsumdef]
      unfold checksum
      omega
    rw [parseFrame]
    dsimp only
    rw [hgd1]
    rw [if_neg (by rw [hlen']; omega : ¬(all' ++ [csum]).length < 3)]
    rw [if_neg (by rw [hlen']; omega : ¬(all' ++ [csum]).length < 2 + (p + 2))]
    rw [htake, hrecv, hexp]
    rw [if_pos hcsne]

/-- C8: the claim says corrupting any single byte of a built frame makes
`parseFrame` reject it.  Corrupting the length byte of
`buildFrame(0x4C, [0x08, 0x00])` from 4 to 2 instead makes `parseFrame`
accept a prefix of the frame as a different valid frame (command `0x4C`,
empty payload). -/
theorem c8_counterexample :
    parseFrame ((buildFrame 0x4c [0x08, 0x00]).set 1 2) =
        some ⟨some 0x4c, []⟩ ∧
      (buildFrame 0x4c [0x08, 0x00]).getD 1 0 = 4 ∧ (2 : Nat) ≠ 4 ∧
      1 < (buildFrame 0x4c [0x08, 0x00]).length := by decide

/-- C8 (amended): for every frame produced by `buildFrame` (bytes in
range, length field not wrapping), every position other than the length
byte (index 1), and every replacement byte different from the original at
that position, `parseFrame` rejects the corrupted frame; corrupting the
length byte may instead cause a strict prefix to be accepted as a
different valid frame. -/
theorem c8_corruption_rejected (cmd : Nat) (payload : List Nat)
    (hc : cmd < 256) (hp : ∀ b ∈ payload, b < 256)
    (hl : payload.length ≤ 253) (i b : Nat)
    (hi : i < (buildFrame cmd payload).length) (hne1 : i ≠ 1)
    (hb : b < 256) (hbne : b ≠ (buildFrame cmd payload).getD i 0) :
    parseFrame ((buildFrame cmd payload).set i b) = none :=
  parse_build_set cmd payload hc hp hl i b hi hne1 hb hbne

/-- Witness for C8: corrupting the command byte of the easy_check frame
`AA 02 4A 0A` from `0x4A` to `0x4B` is rejected. -/
theorem c8_witness :
    parseFrame ((buildFrame 0x4a []).set 2 0x4b) = none :=
  c8_corruption_rejected 0x4a [] (by decide) (by decide) (by decide) 2 0x4b
    (by decide) (by decide) (by decide) (by decide)

/-- C10: `parseFrame` never inspects the header byte: the buffer
`[0x00, 0x02, 0x4B, 0xB3]` starts with `0x00 ≠ 0xAA`, has a consistent
length field and checksum, and is accepted as command `0x4B` with empty
payload. -/
theorem c10_header_not_checked :
    parseFrame [0x00, 0x02, 0x4b, 0xb3] = some ⟨some 0x4b, []⟩ ∧
      (0x00 : Nat) ≠ HEADER := by decide

/-!
Dispatcher model (`src/stick.js`).  The module-level mutable state
(`queue`, `readBuffer`, `responseTimer`, `processing`) becomes an explicit
state record; the asynchronous callbacks become events: a scheduled
`processNext` invocation (with the outcome of its `serial.write` as an
oracle), the response-timer firing, serial data arriving, and a caller
enqueueing a request.  Ghost fields record the transport writes and the
settlement (resolve/reject) log, in order.
-/

/-- The three request kinds of the queue items in stick.js. -/
inductive ReqType where
  | easy_check
  | easy_info
  | easy_send
deriving DecidableEq, Repr

/-- A queue item: `{ type, channel?, payload?, resolve, reject }`; the
promise callbacks are replaced by a ghost id used to log settlement. -/
structure Item where
  id : Nat
  type : ReqType
  channel : Option Nat := none
  payload : Option Nat := none
deriving DecidableEq, Repr

/-- How a request settles (which resolve/reject call runs on it). -/
inductive Outcome where
  | channels (cs : List Nat)
  | unit
  | invalidItem
  | rangeError
  | writeFailed
  | timeout
deriving DecidableEq, Repr

/-- Dispatcher state: the module-level variables of stick.js other than
`readBuffer`, plus ghost fields `nextId`, `writes` and `settled`.
`statusLog` and `learned` model the Status Store (`state.js`) effects. -/
structure DState where
  queue : List Item := []
  responseTimer : Option Nat := none
  processing : Bool := false
  nextId : Nat := 0
  writes : Nat := 0
  settled : List (Nat × Outcome) := []
  learned : Option (List Nat) := none
  statusLog : List (Nat × Option Nat) := []
deriving DecidableEq, Repr

/-- Full state: dispatcher state plus the read buffer. -/
structure SState where
  dsp : DState
  readBuffer : List Nat
deriving DecidableEq, Repr

/-- Insert into a sorted list (helper for `sortChannels`). -/
def sortInsert (x : Nat) : List Nat → List Nat
  | [] => [x]
  | y :: ys => if x ≤ y then x :: y :: ys else y :: sortInsert x ys

/-- `setLearnedChannels` in state.js sorts the channel list ascending
(`[...channels].sort((a, b) => a - b)`). -/
def sortChannels : List Nat → List Nat
  | [] => []
  | x :: xs => sortInsert x (sortChannels xs)

/-- Effect of one parsed inbound frame on the dispatcher state: the body
of the two response branches of `onSerialData` in stick.js. -/
def handleFrame (d : DState) (p : ParsedFrame) : DState :=
  if p.cmd = some RSP_EASY_CONFIRM then
    let high := p.payload.getD 0 0
    let low := p.payload.getD 1 0
    let channels := bitmapToChannels high low
    let d1 := { d with learned := some (sortChannels channels),
                       responseTimer := none }
    match d1.queue with
    | item :: rest =>
      if item.type = ReqType.easy_check then
        { d1 with queue := rest,
                  settled := d1.settled ++ [(item.id, Outcome.channels channels)],
                  processing := false }
      else d1
    | [] => d1
  else if p.cmd = some RSP_EASY_ACK then
    let high := p.payload.getD 0 0
    let low := p.payload.getD 1 0
    let channel := bytesToChannel high low
    let statusByte := p.payload.get? 2
    let d1 := if 1 ≤ channel ∧ channel ≤ 15 then
        { d with statusLog := (channel, statusByte) :: d.statusLog }
      else d
    let d2 := { d1 with responseTimer := none }
    match d2.queue with
    | item :: rest =>
      if item.type = ReqType.easy_info ∨ item.type = ReqType.easy_send then
        { d2 with queue := rest,
                  settled := d2.settled ++ [(item.id, Outcome.unit)],
                  processing := false }
      else d2
    | [] => d2
  else d

/-- The `while (readBuffer.length >= 2)` loop of `onSerialData`: extract
length-delimited frames, parse each, and apply `handleFrame` on success;
corrupt frames are consumed and dropped.  The loop consumes at least two
bytes per iteration, so fuel equal to the buffer length is enough for the
loop to run to its natural exit. -/
def drain : Nat → List Nat → DState → List Nat × DState
  | 0, buf, d => (buf, d)
  | fuel + 1, buf, d =>
    if buf.length < 2 then (buf, d)
    else
      let len := buf.getD 1 0
      let total := 2 + len
      if buf.length < total then (buf, d)
      else
        let frame := buf.take total
        let rest := buf.drop total
        match parseFrame frame with
        | none => drain fuel rest d
        | some p => drain fuel rest (handleFrame d p)

/-- `onSerialData(data)` from stick.js: append to the read buffer, then
run the frame-extraction loop. -/
def onSerialData (s : SState) (data : List Nat) : SState :=
  let buf := s.readBuffer ++ data
  let r := drain buf.length buf s.dsp
  ⟨r.2, r.1⟩

/-- Outcome of building the outbound frame for a queue item in
`processNext`: a buffer, a thrown `RangeError` from `channelToBytes`, or
the `Invalid queue item` branch. -/
inductive BuildResult where
  | built (buffer : List Nat)
  | threw
  | invalid
deriving DecidableEq, Repr

/-- The frame-building `if`/`try` chain at the top of `processNext`. -/
def buildForItem (item : Item) : BuildResult :=
  match item.type with
  | ReqType.easy_check => BuildResult.built buildEasyCheck
  | ReqType.easy_info =>
    match item.channel with
    | some c =>
      match buildEasyInfo c with
      | some b => BuildResult.built b
      | none => BuildResult.threw
    | none => BuildResult.invalid
  | ReqType.easy_send =>
    match item.channel, item.payload with
    | some c, some p =>
      match buildEasySend c p with
      | some b => BuildResult.built b
      | none => BuildResult.threw
    | _, _ => BuildResult.invalid

/-- `processNext()` from stick.js.  `ok` is the outcome of the
`serial.write` promise: on success the response timer is armed (capturing
the head item), on failure the head is rejected.  Invalid items and
`RangeError`s from the codec reject the head without touching the
transport.  The write outcome is applied at the call site here, which
coincides with the source whenever nothing interleaves between the
`serial.write` call and its callback; the asynchronous callback itself,
and the interleavings it admits, are modelled separately by `RState` and
`stepR` below. -/
def processNext (ok : Bool) (d : DState) : DState :=
  if d.processing then d
  else
    match d.queue with
    | [] => d
    | item :: rest =>
      match buildForItem item with
      | BuildResult.invalid =>
        { d with queue := rest,
                 settled := d.settled ++ [(item.id, Outcome.invalidItem)],
                 processing := false }
      | BuildResult.threw =>
        { d with queue := rest,
                 settled := d.settled ++ [(item.id, Outcome.rangeError)],
                 processing := false }
      | BuildResult.built _ =>
        if ok then
          { d with processing := true, writes := d.writes + 1,
                   responseTimer := some item.id }
        else
          { d with queue := rest,
                   settled := d.settled ++ [(item.id, Outcome.writeFailed)],
                   processing := false, writes := d.writes + 1 }

/-- The response-timer callback of `processNext`: pops and rejects the
head only if it is still the captured item, and always clears
`processing`.  When no timer is armed the event cannot fire (no-op). -/
def fireTimer (d : DState) : DState :=
  match d.responseTimer with
  | none => d
  | some tid =>
    let d1 := { d with responseTimer := none }
    let d2 :=
      match d1.queue with
      | item :: rest =>
        if item.id = tid then
          { d1 with queue := rest,
                    settled := d1.settled ++ [(item.id, Outcome.timeout)] }
        else d1
      | [] => d1
    { d2 with processing := false }

/-- `enqueue(item)` from stick.js: append to the queue (the promise
executor); the ghost id is the enqueue sequence number. -/
def enqueueItem (t : ReqType) (channel payload : Option Nat) (d : DState) :
    DState :=
  { d with queue := d.queue ++ [⟨d.nextId, t, channel, payload⟩],
           nextId := d.nextId + 1 }

/-- Events driving the dispatcher: an enqueue, a scheduled `processNext`
callback (with its write outcome), the response timer firing, and serial
data arriving. -/
inductive Ev where
  | enq (t : ReqType) (channel payload : Option Nat)
  | proc (ok : Bool)
  | timer
  | rx (data : List Nat)

/-- One event transition. -/
def step (s : SState) : Ev → SState
  | Ev.enq t c p => ⟨enqueueItem t c p s.dsp, s.readBuffer⟩
  | Ev.proc ok => ⟨processNext ok s.dsp, s.readBuffer⟩
  | Ev.timer => ⟨fireTimer s.dsp, s.readBuffer⟩
  | Ev.rx data => onSerialData s data

/-- A run of the dispatcher over an event sequence. -/
def run (s : SState) (evs : List Ev) : SState :=
  evs.foldl step s

/-- The initial state of the stick module. -/
def initState : SState := ⟨{}, []⟩

example :
    (run initState [Ev.enq ReqType.easy_check none none, Ev.proc true]).dsp.writes
      = 1 := by decide

example :
    (run initState [Ev.enq ReqType.easy_info (some 1) none, Ev.proc true,
      Ev.rx (buildFrame 0x4d [0, 1, 2])]).dsp.settled = [(0, Outcome.unit)] := by
  decide

/-- The fuel of `drain` is irrelevant as long as it is at least the
buffer length (each loop iteration consumes at least two bytes). -/
theorem drain_fuel :
    ∀ (f f' : Nat) (buf : List Nat) (d : DState), buf.length ≤ f →
      buf.length ≤ f' → drain f buf d = drain f' buf d := by
  intro f
  induction f with
  | zero =>
    intro f' buf d h _
    have hbuf : buf = [] := List.eq_nil_of_length_eq_zero (by omega)
    subst hbuf
    cases f' with
    | zero => rfl
    | succ k => simp [drain]
  | succ f ih =>
    intro f' buf d h h'
    cases f' with
    | zero =>
      have hbuf : buf = [] := List.eq_nil_of_length_eq_zero (by omega)
      subst hbuf
      simp [drain]
    | succ k =>
      by_cases h2 : buf.length < 2
      · simp only [drain, if_pos h2]
      · by_cases h3 : buf.length < 2 + buf.getD 1 0
        · simp only [drain, if_neg h2, if_pos h3]
        · simp only [drain, if_neg h2, if_neg h3]
          have hrest : (buf.drop (2 + buf.getD 1 0)).length ≤ f := by
            simp only [List.length_drop]; omega
          have hrest' : (buf.drop (2 + buf.getD 1 0)).length ≤ k := by
            simp only [List.length_drop]; omega
          cases parseFrame (buf.take (2 + buf.getD 1 0)) with
          | none => exact ih k _ _ hrest hrest'
          | some p => exact ih k _ _ hrest hrest'

/-- Draining a buffer and then draining the leftover with extra bytes
appended is the same as draining with the extra bytes appended up front:
the loop of `onSerialData` never looks past the frame it is extracting. -/
theorem drain_append :
    ∀ (f : Nat) (buf : List Nat) (d : DState) (extra : List Nat),
      buf.length ≤ f →
      drain ((drain f buf d).1 ++ extra).length ((drain f buf d).1 ++ extra)
          (drain f buf d).2
        = drain (buf ++ extra).length (buf ++ extra) d := by
  intro f
  induction f with
  | zero =>
    intro buf d extra h
    have hbuf : buf = [] := List.eq_nil_of_length_eq_zero (by omega)
    subst hbuf
    rfl
  | succ f ih =>
    intro buf d extra h
    by_cases h2 : buf.length < 2
    · simp only [drain, if_pos h2]
    · by_cases h3 : buf.length < 2 + buf.getD 1 0
      · simp only [drain, if_neg h2, if_pos h3]
      · have hgetD : (buf ++ extra).getD 1 0 = buf.getD 1 0 :=
          getD_append_left buf extra 1 0 (by omega)
        have htake : (buf ++ extra).take (2 + buf.getD 1 0) =
            buf.take (2 + buf.getD 1 0) :=
          List.take_append_of_le_length (by omega)
        have hdrop : (buf ++ extra).drop (2 + buf.getD 1 0) =
            buf.drop (2 + buf.getD 1 0) ++ extra :=
          List.drop_append_of_le_length (by omega)
        have hlenae : (buf ++ extra).length = buf.length + extra.length := by
          simp
        obtain ⟨k, hk⟩ : ∃ k, (buf ++ extra).length = k + 1 :=
          ⟨(buf ++ extra).length - 1, by simp; omega⟩
        have hrestlen : (buf.drop (2 + buf.getD 1 0) ++ extra).length ≤ k := by
          simp only [List.length_append, List.length_drop]
          omega
        have hrest : (buf.drop (2 + buf.getD 1 0)).length ≤ f := by
          simp only [List.length_drop]; omega
        rw [hk]
        simp only [drain, if_neg h2, if_neg h3]
        rw [if_neg (by rw [hlenae]; omega : ¬(buf ++ extra).length < 2)]
        rw [hgetD]
        rw [if_neg (by rw [hlenae]; omega :
          ¬(buf ++ extra).length < 2 + buf.getD 1 0)]
        rw [htake, hdrop]
        cases hparse : parseFrame (buf.take (2 + buf.getD 1 0)) with
        | none =>
          rw [ih _ d extra hrest]
          exact drain_fuel _ _ _ _ (le_refl _) hrestlen
        | some p =>
          rw [ih _ (handleFrame d p) extra hrest]
          exact drain_fuel _ _ _ _ (le_refl _) hrestlen

/-- Chunking invariance of the serial-data path: delivering bytes in two
chunks is the same as delivering them at once. -/
theorem onSerialData_append (s : SState) (c1 c2 : List Nat) :
    onSerialData (onSerialData s c1) c2 = onSerialData s (c1 ++ c2) := by
  show (⟨(drain _ _ _).2, (drain _ _ _).1⟩ : SState) = _
  unfold onSerialData
  dsimp only
  rw [drain_append (s.readBuffer ++ c1).length (s.readBuffer ++ c1) s.dsp c2
    (le_refl _), List.append_assoc]

/-- C9: for every state and every split of a delivery into two chunks,
feeding the chunks separately to `onSerialData` produces exactly the same
state (read buffer, queue, settlement log and store effects) as feeding
all bytes in one delivery. -/
theorem c9_chunking_invariance (s : SState) (c1 c2 : List Nat) :
    run s [Ev.rx c1, Ev.rx c2] = run s [Ev.rx (c1 ++ c2)] :=
  onSerialData_append s c1 c2

/-- FIFO invariant: the settled ids followed by the ids still queued are
exactly the enqueue sequence numbers, in order.  Requests settle only by
being popped from the head of the queue, so this is preserved by every
event. -/
def FifoInv (d : DState) : Prop :=
  d.settled.map Prod.fst ++ d.queue.map Item.id = List.range d.nextId

/-- Settling the head of the queue preserves the FIFO invariant. -/
theorem fifoInv_settle_head (d : DState) (item : Item) (rest : List Item)
    (o : Outcome) (h : FifoInv d) (hq : d.queue = item :: rest) :
    (d.settled ++ [(item.id, o)]).map Prod.fst ++ rest.map Item.id =
      List.range d.nextId := by
  unfold FifoInv at h
  rw [hq] at h
  simpa [List.append_assoc] using h

/-- `FifoInv` only looks at the queue, the settlement log and the id
counter. -/
theorem fifoInv_of_parts (d d' : DState) (hq : d'.queue = d.queue)
    (hs : d'.settled = d.settled) (hn : d'.nextId = d.nextId)
    (h : FifoInv d) : FifoInv d' := by
  unfold FifoInv at h ⊢
  rw [hq, hs, hn]
  exact h

theorem fifoInv_enqueueItem (t : ReqType) (c p : Option Nat) (d : DState)
    (h : FifoInv d) : FifoInv (enqueueItem t c p d) := by
  unfold FifoInv at h ⊢
  unfold enqueueItem
  simp only [List.map_append, List.map_cons, List.map_nil, List.range_succ,
    ← List.append_assoc]
  rw [h]

theorem fifoInv_processNext (ok : Bool) (d : DState) (h : FifoInv d) :
    FifoInv (processNext ok d) := by
  unfold processNext
  split
  · exact h
  · split
    · exact h
    · next item rest hq =>
      split
      · exact fifoInv_settle_head d item rest _ h hq
      · exact fifoInv_settle_head d item rest _ h hq
      · split
        · unfold FifoInv at h ⊢
          simpa [hq] using h
        · exact fifoInv_settle_head d item rest _ h hq

theorem fifoInv_fireTimer (d : DState) (h : FifoInv d) :
    FifoInv (fireTimer d) := by
  unfold fireTimer
  split
  · exact h
  · next tid _ =>
    dsimp only
    split
    · next item rest hq =>
      split
      · exact fifoInv_settle_head d item rest _ h hq
      · exact h
    · exact h

theorem fifoInv_handleFrame (d : DState) (p : ParsedFrame) (h : FifoInv d) :
    FifoInv (handleFrame d p) := by
  unfold handleFrame
  by_cases hc1 : p.cmd = some RSP_EASY_CONFIRM
  · rw [if_pos hc1]
    dsimp only
    split
    · next item rest hq =>
      split
      · unfold FifoInv
        exact fifoInv_settle_head d item rest _ h hq
      · exact fifoInv_of_parts d _ rfl rfl rfl h
    · exact fifoInv_of_parts d _ rfl rfl rfl h
  · rw [if_neg hc1]
    by_cases hc2 : p.cmd = some RSP_EASY_ACK
    · rw [if_pos hc2]
      dsimp only
      by_cases hcond : 1 ≤ bytesToChannel (p.payload.getD 0 0) (p.payload.getD 1 0) ∧
          bytesToChannel (p.payload.getD 0 0) (p.payload.getD 1 0) ≤ 15
      · rw [if_pos hcond]
        dsimp only
        split
        · next item rest hq =>
          split
          · unfold FifoInv
            exact fifoInv_settle_head d item rest _ h hq
          · exact fifoInv_of_parts d _ rfl rfl rfl h
        · exact fifoInv_of_parts d _ rfl rfl rfl h
      · rw [if_neg hcond]
        split
        · next item rest hq =>
          split
          · unfold FifoInv
            exact fifoInv_settle_head d item rest _ h hq
          · exact fifoInv_of_parts d _ rfl rfl rfl h
        · exact fifoInv_of_parts d _ rfl rfl rfl h
    · rw [if_neg hc2]
      exact h

theorem fifoInv_drain :
    ∀ (f : Nat) (buf : List Nat) (d : DState), FifoInv d →
      FifoInv (drain f buf d).2 := by
  intro f
  induction f with
  | zero => intro buf d h; exact h
  | succ f ih =>
    intro buf d h
    simp only [drain]
    split
    · exact h
    · split
      · exact h
      · split
        · exact ih _ _ h
        · exact ih _ _ (fifoInv_handleFrame d _ h)

theorem fifoInv_step (s : SState) (e : Ev) (h : FifoInv s.dsp) :
    FifoInv (step s e).dsp := by
  cases e with
  | enq t c p => exact fifoInv_enqueueItem t c p s.dsp h
  | proc ok => exact fifoInv_processNext ok s.dsp h
  | timer => exact fifoInv_fireTimer s.dsp h
  | rx data => exact fifoInv_drain _ _ s.dsp h

theorem fifoInv_run :
    ∀ (evs : List Ev) (s : SState), FifoInv s.dsp → FifoInv (run s evs).dsp := by
  intro evs
  induction evs with
  | nil => intro s h; exact h
  | cons e evs ih =>
    intro s h
    exact ih (step s e) (fifoInv_step s e h)

/-- In the synchronous-write model, the sequence of settled (resolved or
rejected) request ids is an initial segment of the enqueue sequence.  The
asynchronous write callback of the source breaks this (see
`c4_write_failure_race` below), which is why this statement is confined
to the model where the write outcome is applied atomically. -/
theorem settlement_initial_segment_atomic (evs : List Ev) :
    (run initState evs).dsp.settled.map Prod.fst =
      List.range (run initState evs).dsp.settled.length := by
  have hinv : FifoInv (run initState evs).dsp :=
    fifoInv_run evs initState (by unfold FifoInv initState; rfl)
  set d := (run initState evs).dsp with hd
  unfold FifoInv at hinv
  have hlen : d.settled.length + d.queue.length = d.nextId := by
    have := congrArg List.length hinv
    simpa using this
  have htake := List.take_left (d.settled.map Prod.fst) (d.queue.map Item.id)
  rw [hinv, List.take_range] at htake
  have hmin : min (d.settled.map Prod.fst).length d.nextId = d.settled.length := by
    rw [List.length_map]
    omega
  rw [hmin] at htake
  exact htake.symm

/-- Write invariant: a response timer is only armed while a request is in
flight and captures the id of the queue head, and the number of transport
writes never exceeds the number of settlements plus one in-flight
request. -/
def WriteInv (d : DState) : Prop :=
  (∀ tid, d.responseTimer = some tid →
    d.processing = true ∧ ∃ item rest, d.queue = item :: rest ∧ item.id = tid) ∧
  d.writes ≤ d.settled.length + (if d.processing then 1 else 0)

theorem writeInv_enqueueItem (t : ReqType) (c p : Option Nat) (d : DState)
    (h : WriteInv d) : WriteInv (enqueueItem t c p d) := by
  obtain ⟨h1, h2⟩ := h
  unfold enqueueItem
  constructor
  · intro tid htid
    obtain ⟨hproc, item, rest, hq, hid⟩ := h1 tid htid
    exact ⟨hproc, item, rest ++ [⟨d.nextId, t, c, p⟩], by rw [hq]; rfl, hid⟩
  · exact h2

theorem writeInv_processNext (ok : Bool) (d : DState) (h : WriteInv d) :
    WriteInv (processNext ok d) := by
  obtain ⟨h1, h2⟩ := h
  unfold processNext
  by_cases hproc : d.processing
  · rw [if_pos hproc]
    exact ⟨h1, h2⟩
  · rw [if_neg hproc]
    have htimer : d.responseTimer = none := by
      cases htid : d.responseTimer with
      | none => rfl
      | some tid =>
        obtain ⟨hp, _⟩ := h1 tid htid
        exact absurd hp hproc
    have hw0 : d.writes ≤ d.settled.length := by
      rw [if_neg hproc] at h2
      exact h2
    cases hq : d.queue with
    | nil => exact ⟨h1, h2⟩
    | cons item rest =>
      dsimp only
      cases hbuild : buildForItem item with
      | invalid =>
        dsimp only
        refine ⟨?_, ?_⟩
        · intro tid htid
          rw [htimer] at htid
          simp at htid
        · simp
          omega
      | threw =>
        dsimp only
        refine ⟨?_, ?_⟩
        · intro tid htid
          rw [htimer] at htid
          simp at htid
        · simp
          omega
      | built buffer =>
        dsimp only
        by_cases hok : ok = true
        · rw [if_pos hok]
          refine ⟨?_, ?_⟩
          · intro tid htid
            simp only [Option.some.injEq] at htid
            exact ⟨rfl, item, rest, rfl, htid⟩
          · simp
            omega
        · rw [if_neg hok]
          refine ⟨?_, ?_⟩
          · intro tid htid
            rw [htimer] at htid
            simp at htid
          · simp
            omega

theorem writeInv_fireTimer (d : DState) (h : WriteInv d) :
    WriteInv (fireTimer d) := by
  obtain ⟨h1, h2⟩ := h
  unfold fireTimer
  cases htid : d.responseTimer with
  | none => exact ⟨h1, h2⟩
  | some tid =>
    obtain ⟨hproc, item, rest, hq, hid⟩ := h1 tid htid
    dsimp only
    rw [hq]
    dsimp only
    rw [if_pos hid]
    refine ⟨?_, ?_⟩
    · intro tid' htid'
      exact absurd htid' (by simp)
    · simp only [List.length_append, List.length_cons, List.length_nil]
      rw [if_pos hproc] at h2
      omega

theorem writeInv_handleFrame (d : DState) (p : ParsedFrame) (h : WriteInv d) :
    WriteInv (handleFrame d p) := by
  obtain ⟨h1, h2⟩ := h
  have h2' : d.writes ≤ d.settled.length + 1 := by
    split at h2 <;> omega
  unfold handleFrame
  by_cases hc1 : p.cmd = some RSP_EASY_CONFIRM
  · rw [if_pos hc1]
    dsimp only
    split
    · next item rest hq =>
      split
      · refine ⟨?_, ?_⟩
        · intro tid htid
          exact absurd htid (by simp)
        · simp only [List.length_append, List.length_cons, List.length_nil]
          omega
      · refine ⟨?_, ?_⟩
        · intro tid htid
          exact absurd htid (by simp)
        · exact h2
    · refine ⟨?_, ?_⟩
      · intro tid htid
        exact absurd htid (by simp)
      · exact h2
  · rw [if_neg hc1]
    by_cases hc2 : p.cmd = some RSP_EASY_ACK
    · rw [if_pos hc2]
      dsimp only
      by_cases hcond : 1 ≤ bytesToChannel (p.payload.getD 0 0) (p.payload.getD 1 0) ∧
          bytesToChannel (p.payload.getD 0 0) (p.payload.getD 1 0) ≤ 15
      · rw [if_pos hcond]
        dsimp only
        split
        · next item rest hq =>
          split
          · refine ⟨?_, ?_⟩
            · intro tid htid
              exact absurd htid (by simp)
            · simp only [List.length_append, List.length_cons, List.length_nil]
              omega
          · refine ⟨?_, ?_⟩
            · intro tid htid
              exact absurd htid (by simp)
            · exact h2
        · refine ⟨?_, ?_⟩
          · intro tid htid
            exact absurd htid (by simp)
          · exact h2
      · rw [if_neg hcond]
        split
        · next item rest hq =>
          split
          · refine ⟨?_, ?_⟩
            · intro tid htid
              exact absurd htid (by simp)
            · simp only [List.length_append, List.length_cons, List.length_nil]
              omega
          · refine ⟨?_, ?_⟩
            · intro tid htid
              exact absurd htid (by simp)
            · exact h2
        · refine ⟨?_, ?_⟩
          · intro tid htid
            exact absurd htid (by simp)
          · exact h2
    · rw [if_neg hc2]
      exact ⟨h1, h2⟩

theorem writeInv_drain :
    ∀ (f : Nat) (buf : List Nat) (d : DState), WriteInv d →
      WriteInv (drain f buf d).2 := by
  intro f
  induction f with
  | zero => intro buf d h; exact h
  | succ f ih =>
    intro buf d h
    simp only [drain]
    split
    · exact h
    · split
      · exact h
      · split
        · exact ih _ _ h
        · exact ih _ _ (writeInv_handleFrame d _ h)

theorem writeInv_step (s : SState) (e : Ev) (h : WriteInv s.dsp) :
    WriteInv (step s e).dsp := by
  cases e with
  | enq t c p => exact writeInv_enqueueItem t c p s.dsp h
  | proc ok => exact writeInv_processNext ok s.dsp h
  | timer => exact writeInv_fireTimer s.dsp h
  | rx data => exact writeInv_drain _ _ s.dsp h

theorem writeInv_run :
    ∀ (evs : List Ev) (s : SState), WriteInv s.dsp → WriteInv (run s evs).dsp := by
  intro evs
  induction evs with
  | nil => intro s h; exact h
  | cons e evs ih =>
    intro s h
    exact ih (step s e) (writeInv_step s e h)

theorem writeInv_init : WriteInv initState.dsp := by
  unfold WriteInv initState
  refine ⟨?_, ?_⟩
  · intro tid htid
    simp at htid
  · simp

/-- A request that `processNext` can actually write: the build step
produces a buffer (well-formed item, channel in range). -/
def validReq (t : ReqType) (c p : Option Nat) : Bool :=
  match buildForItem ⟨0, t, c, p⟩ with
  | BuildResult.built _ => true
  | BuildResult.threw => false
  | BuildResult.invalid => false

/-- Events of a quiet run for C3: enqueues of writable requests and
scheduled `processNext` callbacks whose write succeeds; no inbound frames,
no timeouts, no write failures. -/
def quietEv : Ev → Prop
  | Ev.enq t c p => validReq t c p = true
  | Ev.proc ok => ok = true
  | Ev.timer => False
  | Ev.rx _ => False

/-- Invariant of quiet runs: every queued item is writable, and the write
counter is 1 while a request is in flight and 0 otherwise. -/
def QuietInv (d : DState) : Prop :=
  (∀ it ∈ d.queue, validReq it.type it.channel it.payload = true) ∧
  (d.processing = true → d.writes = 1) ∧
  (d.processing = false → d.writes = 0)

theorem validReq_built (it : Item)
    (h : validReq it.type it.channel it.payload = true) :
    ∃ b, buildForItem it = BuildResult.built b := by
  have heq : buildForItem it = buildForItem ⟨0, it.type, it.channel, it.payload⟩ := by
    cases it
    rfl
  rw [heq]
  unfold validReq at h
  cases hb : buildForItem ⟨0, it.type, it.channel, it.payload⟩ with
  | built b => exact ⟨b, rfl⟩
  | threw => rw [hb] at h; simp at h
  | invalid => rw [hb] at h; simp at h

theorem run_append (s : SState) (a b : List Ev) :
    run s (a ++ b) = run (run s a) b := by
  unfold run
  exact List.foldl_append step s a b

theorem run_cons (s : SState) (e : Ev) (l : List Ev) :
    run s (e :: l) = run (step s e) l := rfl

theorem quiet_enqueue (t : ReqType) (c p : Option Nat)
    (hv : validReq t c p = true) (d : DState) (h : QuietInv d) :
    QuietInv (enqueueItem t c p d) := by
  obtain ⟨hval, hw1, hw0⟩ := h
  refine ⟨?_, hw1, hw0⟩
  intro it hit
  rcases List.mem_append.mp hit with h1 | h1
  · exact hval it h1
  · rcases List.mem_singleton.mp h1 with rfl
    exact hv

theorem quiet_processNext (d : DState) (h : QuietInv d) :
    QuietInv (processNext true d) := by
  obtain ⟨hval, hw1, hw0⟩ := h
  unfold processNext
  by_cases hproc : d.processing
  · rw [if_pos hproc]
    exact ⟨hval, hw1, hw0⟩
  · rw [if_neg hproc]
    have hpf : d.processing = false := by
      revert hproc; cases d.processing <;> simp
    cases hq : d.queue with
    | nil => exact ⟨hval, hw1, hw0⟩
    | cons item rest =>
      dsimp only
      obtain ⟨b, hb⟩ :=
        validReq_built item (hval item (by rw [hq]; exact List.mem_cons_self _ _))
      rw [hb]
      dsimp only
      rw [if_pos rfl]
      refine ⟨?_, ?_, ?_⟩
      · intro it hit
        exact hval it (by rw [hq]; exact hit)
      · intro _
        have := hw0 hpf
        simp only []
        omega
      · intro hfalse
        simp at hfalse

theorem quiet_processNext_starts (d : DState) (h : QuietInv d)
    (hne : d.queue ≠ [] ∨ d.processing = true) :
    (processNext true d).processing = true := by
  obtain ⟨hval, hw1, hw0⟩ := h
  unfold processNext
  by_cases hproc : d.processing
  · rw [if_pos hproc]
    exact hproc
  · rw [if_neg hproc]
    cases hq : d.queue with
    | nil =>
      rcases hne with hne | hne
      · exact absurd hq hne
      · exact absurd hne hproc
    | cons item rest =>
      dsimp only
      obtain ⟨b, hb⟩ :=
        validReq_built item (hval item (by rw [hq]; exact List.mem_cons_self _ _))
      rw [hb]
      dsimp only
      rw [if_pos rfl]

theorem quiet_step (s : SState) (e : Ev) (hq : quietEv e) (h : QuietInv s.dsp) :
    QuietInv (step s e).dsp ∧
      ((s.dsp.queue ≠ [] ∨ s.dsp.processing = true) →
        ((step s e).dsp.queue ≠ [] ∨ (step s e).dsp.processing = true)) := by
  cases e with
  | enq t c p =>
    refine ⟨quiet_enqueue t c p hq s.dsp h, fun _ => Or.inl ?_⟩
    show (enqueueItem t c p s.dsp).queue ≠ []
    unfold enqueueItem
    simp
  | proc ok =>
    have hok : ok = true := hq
    subst hok
    refine ⟨quiet_processNext s.dsp h, fun hne => Or.inr ?_⟩
    exact quiet_processNext_starts s.dsp h hne
  | timer => exact hq.elim
  | rx data => exact hq.elim

theorem quiet_run :
    ∀ (evs : List Ev) (s : SState), (∀ e ∈ evs, quietEv e) → QuietInv s.dsp →
      QuietInv (run s evs).dsp ∧
        ((s.dsp.queue ≠ [] ∨ s.dsp.processing = true) →
          ((run s evs).dsp.queue ≠ [] ∨ (run s evs).dsp.processing = true)) := by
  intro evs
  induction evs with
  | nil => intro s _ h; exact ⟨h, fun hne => hne⟩
  | cons e evs ih =>
    intro s hq h
    have hqe : quietEv e := hq e (List.mem_cons_self _ _)
    have hqs : ∀ e' ∈ evs, quietEv e' := fun e' he' => hq e' (List.mem_cons_of_mem _ he')
    have hstep := quiet_step s e hqe h
    have hrest := ih (step s e) hqs hstep.1
    exact ⟨hrest.1, fun hne => hrest.2 (hstep.2 hne)⟩

theorem quiet_step_inflight (s : SState) (e : Ev) (hq : quietEv e)
    (hp : s.dsp.processing = true) :
    (step s e).dsp.processing = true ∧ (step s e).dsp.writes = s.dsp.writes := by
  cases e with
  | enq t c p => exact ⟨hp, rfl⟩
  | proc ok =>
    have heq : processNext ok s.dsp = s.dsp := by
      unfold processNext
      rw [if_pos hp]
    show (processNext ok s.dsp).processing = true ∧
      (processNext ok s.dsp).writes = s.dsp.writes
    rw [heq]
    exact ⟨hp, rfl⟩
  | timer => exact hq.elim
  | rx data => exact hq.elim

theorem quiet_run_inflight :
    ∀ (evs : List Ev) (s : SState), (∀ e ∈ evs, quietEv e) →
      s.dsp.processing = true →
      (run s evs).dsp.processing = true ∧ (run s evs).dsp.writes = s.dsp.writes := by
  intro evs
  induction evs with
  | nil => intro s _ hp; exact ⟨hp, rfl⟩
  | cons e evs ih =>
    intro s hq hp
    have hqe : quietEv e := hq e (List.mem_cons_self _ _)
    have hqs : ∀ e' ∈ evs, quietEv e' := fun e' he' => hq e' (List.mem_cons_of_mem _ he')
    have hstep := quiet_step_inflight s e hqe hp
    have hrest := ih (step s e) hqs hstep.1
    refine ⟨hrest.1, ?_⟩
    rw [run_cons, hrest.2, hstep.2]

theorem quietInv_init : QuietInv initState.dsp := by
  unfold QuietInv initState
  refine ⟨?_, ?_, ?_⟩
  · intro it hit
    simp at hit
  · intro h
    simp at h
  · intro _
    rfl

/-- C3: (1) in any quiet run — writable requests enqueued, scheduled
`processNext` callbacks firing with successful writes, no inbound frames
and no timeouts — that contains an enqueue followed eventually by a
`processNext`, the transport is written exactly once, no matter how many
requests were enqueued; (2) in every run whatsoever, the number of
transport writes never exceeds the number of settled requests plus one,
so a second write can only happen after the in-flight request settled by
matching response, timeout, or write failure. -/
theorem c3_single_write_until_settled :
    (∀ (evs₁ evs₂ evs₃ : List Ev) (t : ReqType) (c p : Option Nat),
      (∀ e ∈ evs₁, quietEv e) → (∀ e ∈ evs₂, quietEv e) →
      (∀ e ∈ evs₃, quietEv e) → validReq t c p = true →
      (run initState
          (evs₁ ++ Ev.enq t c p :: (evs₂ ++ Ev.proc true :: evs₃))).dsp.writes
        = 1) ∧
    (∀ evs : List Ev,
      (run initState evs).dsp.writes ≤
        (run initState evs).dsp.settled.length + 1) := by
  constructor
  · intro evs₁ evs₂ evs₃ t c p hq1 hq2 hq3 hv
    have hdecomp : run initState
        (evs₁ ++ Ev.enq t c p :: (evs₂ ++ Ev.proc true :: evs₃))
        = run (step (run (step (run initState evs₁) (Ev.enq t c p)) evs₂)
            (Ev.proc true)) evs₃ := by
      rw [run_append, run_cons, run_append, run_cons]
    rw [hdecomp]
    have h1 : QuietInv (run initState evs₁).dsp :=
      (quiet_run evs₁ initState hq1 quietInv_init).1
    have h2 : QuietInv (step (run initState evs₁) (Ev.enq t c p)).dsp :=
      (quiet_step (run initState evs₁) (Ev.enq t c p) hv h1).1
    have h2ne : (step (run initState evs₁) (Ev.enq t c p)).dsp.queue ≠ [] := by
      show (enqueueItem t c p (run initState evs₁).dsp).queue ≠ []
      unfold enqueueItem
      simp
    have h3 := quiet_run evs₂ _ hq2 h2
    have h3ne := h3.2 (Or.inl h2ne)
    have h4proc : (step (run (step (run initState evs₁) (Ev.enq t c p)) evs₂)
        (Ev.proc true)).dsp.processing = true :=
      quiet_processNext_starts _ h3.1 h3ne
    have h4inv : QuietInv (step (run (step (run initState evs₁) (Ev.enq t c p))
        evs₂) (Ev.proc true)).dsp :=
      quiet_processNext _ h3.1
    have h4w := h4inv.2.1 h4proc
    have h5 := quiet_run_inflight evs₃ _ hq3 h4proc
    rw [h5.2, h4w]
  · intro evs
    have h := (writeInv_run evs initState writeInv_init).2
    split at h <;> omega

/-- Witness for C3: three requests enqueued, one scheduled dispatch: one
write; and the write/settlement bound at a concrete run. -/
theorem c3_witness :
    (run initState [Ev.enq ReqType.easy_check none none,
        Ev.enq ReqType.easy_info (some 3) none,
        Ev.enq ReqType.easy_send (some 5) (some 0x20),
        Ev.proc true]).dsp.writes = 1 ∧
    (run initState [Ev.enq ReqType.easy_check none none,
        Ev.proc true]).dsp.writes ≤
      (run initState [Ev.enq ReqType.easy_check none none,
          Ev.proc true]).dsp.settled.length + 1 := by
  constructor
  · exact c3_single_write_until_settled.1
      [Ev.enq ReqType.easy_check none none,
        Ev.enq ReqType.easy_info (some 3) none] []
      [] ReqType.easy_send (some 5) (some 0x20)
      (by intro e he; fin_cases he <;> simp only [quietEv] <;> decide)
      (by intro e he; simp at he)
      (by intro e he; simp at he)
      (by decide)
  · exact c3_single_write_until_settled.2
      [Ev.enq ReqType.easy_check none none, Ev.proc true]

/-- C5: the claim says out-of-range channels are rejected before the
request is enqueued.  In the code `easyInfo(20)` is enqueued as-is: after
the enqueue the request sits in the queue with nothing settled; only when
`processNext` reaches it does `channelToBytes` throw, and the request is
rejected then (with no transport write). -/
theorem c5_counterexample :
    (run initState [Ev.enq ReqType.easy_info (some 20) none]).dsp.queue =
        [⟨0, ReqType.easy_info, some 20, none⟩] ∧
      (run initState [Ev.enq ReqType.easy_info (some 20) none]).dsp.settled = [] ∧
      (run initState [Ev.enq ReqType.easy_info (some 20) none,
          Ev.proc true]).dsp.settled = [(0, Outcome.rangeError)] ∧
      (run initState [Ev.enq ReqType.easy_info (some 20) none,
          Ev.proc true]).dsp.writes = 0 := by decide

/-- `channelToBytes` fails outside 1..15. -/
theorem channelToBytes_none (c : Nat) (hc : c = 0 ∨ 15 < c) :
    channelToBytes c = none := by
  unfold channelToBytes
  rw [if_pos (by omega)]

/-- C5 (amended): for every channel outside 1..15, an `easy_info` or
`easy_send` request for it is enqueued normally (nothing is settled at
enqueue time); when dispatch reaches it, `channelToBytes` raises the
validation `RangeError`, the dispatcher catches it and rejects the
request, and the transport is never written for it. -/
theorem c5_validation_at_dispatch (c : Nat) (hc : c = 0 ∨ 15 < c) (pb : Nat) :
    (run initState [Ev.enq ReqType.easy_info (some c) none]).dsp.queue =
        [⟨0, ReqType.easy_info, some c, none⟩] ∧
      (run initState [Ev.enq ReqType.easy_info (some c) none]).dsp.settled = [] ∧
      (run initState [Ev.enq ReqType.easy_info (some c) none,
          Ev.proc true]).dsp.settled = [(0, Outcome.rangeError)] ∧
      (run initState [Ev.enq ReqType.easy_info (some c) none,
          Ev.proc true]).dsp.writes = 0 ∧
      (run initState [Ev.enq ReqType.easy_send (some c) (some pb),
          Ev.proc true]).dsp.settled = [(0, Outcome.rangeError)] ∧
      (run initState [Ev.enq ReqType.easy_send (some c) (some pb),
          Ev.proc true]).dsp.writes = 0 := by
  have hnone := channelToBytes_none c hc
  refine ⟨?_, ?_, ?_, ?_, ?_, ?_⟩ <;>
    simp [run, step, enqueueItem, processNext, buildForItem, buildEasyInfo,
      buildEasySend, hnone, initState]

/-- Witness for C5: channel 20 is enqueued and then rejected at dispatch. -/
theorem c5_witness :
    (run initState [Ev.enq ReqType.easy_info (some 20) none,
        Ev.proc true]).dsp.settled = [(0, Outcome.rangeError)] :=
  (c5_validation_at_dispatch 20 (by decide) 0x20).2.2.1

/-- Draining the empty buffer does nothing. -/
theorem drain_nil (f : Nat) (d : DState) : drain f [] d = ([], d) := by
  cases f <;> simp [drain]

/-- Draining a buffer holding exactly one parseable frame consumes it and
applies its effect. -/
theorem drain_exact_frame (buf : List Nat) (d : DState) (f : Nat)
    (hf : buf.length ≤ f) (h2 : 2 ≤ buf.length)
    (hlen : 2 + buf.getD 1 0 = buf.length) (p : ParsedFrame)
    (hp : parseFrame buf = some p) :
    drain f buf d = ([], handleFrame d p) := by
  obtain ⟨k, hk⟩ : ∃ k, f = k + 1 := ⟨f - 1, by omega⟩
  subst hk
  simp only [drain]
  rw [if_neg (by omega : ¬buf.length < 2)]
  rw [if_neg (by omega : ¬buf.length < 2 + buf.getD 1 0)]
  rw [hlen]
  rw [List.take_length, List.drop_length]
  rw [hp]
  exact drain_nil k (handleFrame d p)

/-- C2: the claim says a well-formed frame whose kind does not match the
in-flight head only updates the Status Store.  In the code the confirm
branch calls `clearResponseTimer()` before checking the head: with an
`easy_info` in flight (timer armed for it), an inbound `easy_confirm`
leaves the head queued and unsettled but cancels the response timer, so
the timeout event becomes a no-op and the head can no longer settle by
timeout. -/
theorem c2_counterexample :
    (run initState [Ev.enq ReqType.easy_info (some 1) none,
        Ev.proc true]).dsp.responseTimer = some 0 ∧
      (run initState [Ev.enq ReqType.easy_info (some 1) none, Ev.proc true,
          Ev.rx (buildFrame 0x4b [0, 5])]).dsp.responseTimer = none ∧
      (run initState [Ev.enq ReqType.easy_info (some 1) none, Ev.proc true,
          Ev.rx (buildFrame 0x4b [0, 5])]).dsp.queue =
        [⟨0, ReqType.easy_info, some 1, none⟩] ∧
      (run initState [Ev.enq ReqType.easy_info (some 1) none, Ev.proc true,
          Ev.rx (buildFrame 0x4b [0, 5])]).dsp.settled = [] ∧
      step (run initState [Ev.enq ReqType.easy_info (some 1) none, Ev.proc true,
          Ev.rx (buildFrame 0x4b [0, 5])]) Ev.timer =
        run initState [Ev.enq ReqType.easy_info (some 1) none, Ev.proc true,
          Ev.rx (buildFrame 0x4b [0, 5])] := by decide

/-- Receiving exactly one built frame on an empty read buffer parses it
and applies its `handleFrame` effect, leaving the buffer empty. -/
theorem rx_single_frame (s : SState) (hbuf : s.readBuffer = [])
    (cmd : Nat) (payload : List Nat) (hc : cmd < 256)
    (hp : ∀ b ∈ payload, b < 256) (hl : payload.length ≤ 253) :
    step s (Ev.rx (buildFrame cmd payload)) =
      ⟨handleFrame s.dsp ⟨some cmd, payload⟩, []⟩ := by
  have hbe := buildFrame_eq cmd payload hc hp hl
  have hlen4 : (buildFrame cmd payload).length = payload.length + 4 := by
    rw [hbe]
    simp
  have hgd : (buildFrame cmd payload).getD 1 0 = payload.length + 2 := by
    rw [hbe]
    rfl
  have hparse := parse_build cmd payload hc hp hl
  have hdrain : drain ((buildFrame cmd payload).length) (buildFrame cmd payload)
      s.dsp = ([], handleFrame s.dsp ⟨some cmd, payload⟩) :=
    drain_exact_frame _ _ _ (le_refl _) (by omega) (by rw [hgd, hlen4]; omega) _
      hparse
  show onSerialData s (buildFrame cmd payload) = _
  unfold onSerialData
  rw [hbuf]
  dsimp only
  rw [List.nil_append, hdrain]

/-- Mismatch family 1: a well-formed `easy_confirm` frame arriving while
an ack-expecting request (`easy_info`/`easy_send`) is at the head updates
the learned-channels store and clears the response timer, but does not
pop or settle the head and leaves `processing` unchanged. -/
theorem confirm_mismatch_effect (s : SState) (item : Item) (rest : List Item)
    (h l : Nat) (hbuf : s.readBuffer = []) (hq : s.dsp.queue = item :: rest)
    (ht : item.type = ReqType.easy_info ∨ item.type = ReqType.easy_send)
    (hh : h < 256) (hl : l < 256) :
    (step s (Ev.rx (buildFrame 0x4b [h, l]))).dsp.queue = s.dsp.queue ∧
      (step s (Ev.rx (buildFrame 0x4b [h, l]))).dsp.settled = s.dsp.settled ∧
      (step s (Ev.rx (buildFrame 0x4b [h, l]))).dsp.processing =
        s.dsp.processing ∧
      (step s (Ev.rx (buildFrame 0x4b [h, l]))).dsp.responseTimer = none ∧
      (step s (Ev.rx (buildFrame 0x4b [h, l]))).dsp.learned =
        some (sortChannels (bitmapToChannels h l)) ∧
      (step s (Ev.rx (buildFrame 0x4b [h, l]))).readBuffer = [] := by
  have hbytes : ∀ b ∈ [h, l], b < 256 := by
    intro b hb
    rcases List.mem_cons.mp hb with rfl | hb
    · exact hh
    · rcases List.mem_singleton.mp hb with rfl
      exact hl
  have hstep := rx_single_frame s hbuf 0x4b [h, l] (by decide) hbytes (by simp)
  have hnotcheck : ¬item.type = ReqType.easy_check := by
    rcases ht with h' | h' <;> rw [h'] <;> intro hcontra <;> cases hcontra
  have hhandle : handleFrame s.dsp ⟨some 0x4b, [h, l]⟩ =
      { s.dsp with learned := some (sortChannels (bitmapToChannels h l)),
                   responseTimer := none } := by
    unfold handleFrame
    dsimp only
    rw [if_pos (show (some 0x4b : Option Nat) = some RSP_EASY_CONFIRM by decide)]
    simp only [List.getD_cons_zero, List.getD_cons_succ]
    rw [hq]
    dsimp only
    rw [if_neg hnotcheck]
  rw [hstep, hhandle]
  exact ⟨rfl, rfl, rfl, rfl, rfl, rfl⟩

/-- Mismatch family 2: a well-formed `easy_ack` frame arriving while an
`easy_check` is at the head updates the per-channel status store (when
the ack carries a decodable single channel) and clears the response
timer, but does not pop or settle the head and leaves `processing` and
the learned-channels store unchanged. -/
theorem ack_mismatch_effect (s : SState) (item : Item) (rest : List Item)
    (h l st : Nat) (hbuf : s.readBuffer = [])
    (hq : s.dsp.queue = item :: rest) (ht : item.type = ReqType.easy_check)
    (hh : h < 256) (hl : l < 256) (hst : st < 256) :
    (step s (Ev.rx (buildFrame 0x4d [h, l, st]))).dsp.queue = s.dsp.queue ∧
      (step s (Ev.rx (buildFrame 0x4d [h, l, st]))).dsp.settled =
        s.dsp.settled ∧
      (step s (Ev.rx (buildFrame 0x4d [h, l, st]))).dsp.processing =
        s.dsp.processing ∧
      (step s (Ev.rx (buildFrame 0x4d [h, l, st]))).dsp.responseTimer = none ∧
      (step s (Ev.rx (buildFrame 0x4d [h, l, st]))).dsp.learned =
        s.dsp.learned ∧
      (step s (Ev.rx (buildFrame 0x4d [h, l, st]))).dsp.statusLog =
        (if 1 ≤ bytesToChannel h l ∧ bytesToChannel h l ≤ 15 then
          (bytesToChannel h l, some st) :: s.dsp.statusLog
        else s.dsp.statusLog) ∧
      (step s (Ev.rx (buildFrame 0x4d [h, l, st]))).readBuffer = [] := by
  have hbytes : ∀ b ∈ [h, l, st], b < 256 := by
    intro b hb
    rcases List.mem_cons.mp hb with rfl | hb
    · exact hh
    rcases List.mem_cons.mp hb with rfl | hb
    · exact hl
    rcases List.mem_singleton.mp hb with rfl
    exact hst
  have hstep := rx_single_frame s hbuf 0x4d [h, l, st] (by decide) hbytes (by simp)
  have hnotack : ¬(item.type = ReqType.easy_info ∨
      item.type = ReqType.easy_send) := by
    rw [ht]
    rintro (hcon | hcon) <;> exact absurd hcon (by decide)
  have hhandle : handleFrame s.dsp ⟨some 0x4d, [h, l, st]⟩ =
      (if 1 ≤ bytesToChannel h l ∧ bytesToChannel h l ≤ 15 then
        { s.dsp with
            statusLog := (bytesToChannel h l, some st) :: s.dsp.statusLog,
            responseTimer := none }
      else { s.dsp with responseTimer := none }) := by
    unfold handleFrame
    dsimp only
    rw [if_neg (show ¬(some 0x4d : Option Nat) = some RSP_EASY_CONFIRM by decide)]
    rw [if_pos (show (some 0x4d : Option Nat) = some RSP_EASY_ACK by decide)]
    simp only [List.getD_cons_zero, List.getD_cons_succ, List.get?]
    by_cases hcond : 1 ≤ bytesToChannel h l ∧ bytesToChannel h l ≤ 15
    · rw [if_pos hcond, if_pos hcond]
      dsimp only
      rw [hq]
      dsimp only
      rw [if_neg hnotack]
    · rw [if_neg hcond, if_neg hcond]
      rw [hq]
      dsimp only
      rw [if_neg hnotack]
  rw [hstep, hhandle]
  by_cases hcond : 1 ≤ bytesToChannel h l ∧ bytesToChannel h l ≤ 15
  · rw [if_pos hcond, if_pos hcond]
    exact ⟨rfl, rfl, rfl, rfl, rfl, rfl, rfl⟩
  · rw [if_neg hcond, if_neg hcond]
    exact ⟨rfl, rfl, rfl, rfl, rfl, rfl, rfl⟩

/-- C2 (amended): for both mismatch families — a well-formed
`easy_confirm` arriving while an `easy_info`/`easy_send` is in flight, and
a well-formed `easy_ack` arriving while an `easy_check` is in flight —
the frame updates the Status Store (learned channels for a confirm, the
per-channel status for an ack) AND clears the response timer; it does not
pop or settle the head request and leaves `processing` unchanged, so the
head can settle only through a later matching response, the cancelled
timeout no longer being able to fire. -/
theorem c2_mismatched_frame_effect :
    (∀ (s : SState) (item : Item) (rest : List Item) (h l : Nat),
      s.readBuffer = [] → s.dsp.queue = item :: rest →
      item.type = ReqType.easy_info ∨ item.type = ReqType.easy_send →
      h < 256 → l < 256 →
      (step s (Ev.rx (buildFrame 0x4b [h, l]))).dsp.queue = s.dsp.queue ∧
        (step s (Ev.rx (buildFrame 0x4b [h, l]))).dsp.settled =
          s.dsp.settled ∧
        (step s (Ev.rx (buildFrame 0x4b [h, l]))).dsp.processing =
          s.dsp.processing ∧
        (step s (Ev.rx (buildFrame 0x4b [h, l]))).dsp.responseTimer = none ∧
        (step s (Ev.rx (buildFrame 0x4b [h, l]))).dsp.learned =
          some (sortChannels (bitmapToChannels h l)) ∧
        (step s (Ev.rx (buildFrame 0x4b [h, l]))).readBuffer = []) ∧
    (∀ (s : SState) (item : Item) (rest : List Item) (h l st : Nat),
      s.readBuffer = [] → s.dsp.queue = item :: rest →
      item.type = ReqType.easy_check →
      h < 256 → l < 256 → st < 256 →
      (step s (Ev.rx (buildFrame 0x4d [h, l, st]))).dsp.queue =
          s.dsp.queue ∧
        (step s (Ev.rx (buildFrame 0x4d [h, l, st]))).dsp.settled =
          s.dsp.settled ∧
        (step s (Ev.rx (buildFrame 0x4d [h, l, st]))).dsp.processing =
          s.dsp.processing ∧
        (step s (Ev.rx (buildFrame 0x4d [h, l, st]))).dsp.responseTimer =
          none ∧
        (step s (Ev.rx (buildFrame 0x4d [h, l, st]))).dsp.learned =
          s.dsp.learned ∧
        (step s (Ev.rx (buildFrame 0x4d [h, l, st]))).dsp.statusLog =
          (if 1 ≤ bytesToChannel h l ∧ bytesToChannel h l ≤ 15 then
            (bytesToChannel h l, some st) :: s.dsp.statusLog
          else s.dsp.statusLog) ∧
        (step s (Ev.rx (buildFrame 0x4d [h, l, st]))).readBuffer = []) :=
  ⟨fun s item rest h l hbuf hq ht hh hl =>
      confirm_mismatch_effect s item rest h l hbuf hq ht hh hl,
    fun s item rest h l st hbuf hq ht hh hl hst =>
      ack_mismatch_effect s item rest h l st hbuf hq ht hh hl hst⟩

/-- Witness for C2 (amended): `easy_info(1)` in flight receiving a
confirm for channels 1 and 3, and `easy_check` in flight receiving an ack
for channel 1 with status byte 2. -/
theorem c2_witness :
    (step (run initState [Ev.enq ReqType.easy_info (some 1) none, Ev.proc true])
        (Ev.rx (buildFrame 0x4b [0, 5]))).dsp.responseTimer = none ∧
      (step (run initState [Ev.enq ReqType.easy_info (some 1) none,
          Ev.proc true]) (Ev.rx (buildFrame 0x4b [0, 5]))).dsp.learned =
        some (sortChannels (bitmapToChannels 0 5)) ∧
      (step (run initState [Ev.enq ReqType.easy_check none none, Ev.proc true])
          (Ev.rx (buildFrame 0x4d [0, 1, 2]))).dsp.responseTimer = none ∧
      (step (run initState [Ev.enq ReqType.easy_check none none, Ev.proc true])
          (Ev.rx (buildFrame 0x4d [0, 1, 2]))).dsp.queue =
        (run initState [Ev.enq ReqType.easy_check none none,
          Ev.proc true]).dsp.queue :=
  have h1 := c2_mismatched_frame_effect.1
    (run initState [Ev.enq ReqType.easy_info (some 1) none, Ev.proc true])
    ⟨0, ReqType.easy_info, some 1, none⟩ [] 0 5 (by decide) (by decide)
    (Or.inl rfl) (by decide) (by decide)
  have h2 := c2_mismatched_frame_effect.2
    (run initState [Ev.enq ReqType.easy_check none none, Ev.proc true])
    ⟨0, ReqType.easy_check, none, none⟩ [] 0 1 2 (by decide) (by decide)
    rfl (by decide) (by decide) (by decide)
  ⟨h1.2.2.2.1, h1.2.2.2.2.1, h2.2.2.2.1, h2.1⟩

/-!
Asynchronous-write model of stick.js.  `serial.write(buffer).then(ok, err)`
returns immediately: the success handler (which arms the response timer,
capturing the head item) and the failure handler (which does `queue.shift()`
and `item.reject(err)` — without the `queue[0] === item` guard that the
timeout callback has) run later, as separate events that can interleave
with inbound frames.  The pending callbacks are part of the state, and
each resolve/reject goes through the promise settle-once guard (settling
an already-settled promise is a no-op).
-/

/-- Dispatcher state with the ids captured by outstanding `serial.write`
callbacks. -/
structure RState where
  queue : List Item := []
  responseTimer : Option Nat := none
  processing : Bool := false
  nextId : Nat := 0
  writes : Nat := 0
  settled : List (Nat × Outcome) := []
  learned : Option (List Nat) := none
  statusLog : List (Nat × Option Nat) := []
  pendingWrites : List Nat := []
deriving DecidableEq, Repr

/-- Settle the promise of request `i`: a no-op if it already settled. -/
def settleOnce (d : RState) (i : Nat) (o : Outcome) : RState :=
  if (d.settled.map Prod.fst).contains i then d
  else { d with settled := d.settled ++ [(i, o)] }

/-- `onSerialData`'s response branches, over `RState`. -/
def handleFrameR (d : RState) (p : ParsedFrame) : RState :=
  if p.cmd = some RSP_EASY_CONFIRM then
    let high := p.payload.getD 0 0
    let low := p.payload.getD 1 0
    let channels := bitmapToChannels high low
    let d1 := { d with learned := some (sortChannels channels),
                       responseTimer := none }
    match d1.queue with
    | item :: rest =>
      if item.type = ReqType.easy_check then
        { settleOnce { d1 with queue := rest } item.id
            (Outcome.channels channels) with processing := false }
      else d1
    | [] => d1
  else if p.cmd = some RSP_EASY_ACK then
    let high := p.payload.getD 0 0
    let low := p.payload.getD 1 0
    let channel := bytesToChannel high low
    let statusByte := p.payload.get? 2
    let d1 := if 1 ≤ channel ∧ channel ≤ 15 then
        { d with statusLog := (channel, statusByte) :: d.statusLog }
      else d
    let d2 := { d1 with responseTimer := none }
    match d2.queue with
    | item :: rest =>
      if item.type = ReqType.easy_info ∨ item.type = ReqType.easy_send then
        { settleOnce { d2 with queue := rest } item.id Outcome.unit with
            processing := false }
      else d2
    | [] => d2
  else d

/-- The frame-extraction loop of `onSerialData`, over `RState`. -/
def drainR : Nat → List Nat → RState → List Nat × RState
  | 0, buf, d => (buf, d)
  | fuel + 1, buf, d =>
    if buf.length < 2 then (buf, d)
    else
      let len := buf.getD 1 0
      let total := 2 + len
      if buf.length < total then (buf, d)
      else
        let frame := buf.take total
        let rest := buf.drop total
        match parseFrame frame with
        | none => drainR fuel rest d
        | some p => drainR fuel rest (handleFrameR d p)

/-- Full asynchronous-model state: dispatcher plus read buffer. -/
structure RSState where
  dsp : RState
  readBuffer : List Nat
deriving DecidableEq, Repr

/-- `onSerialData(data)` over the asynchronous model. -/
def onSerialDataR (s : RSState) (data : List Nat) : RSState :=
  let buf := s.readBuffer ++ data
  let r := drainR buf.length buf s.dsp
  ⟨r.2, r.1⟩

/-- `processNext()` in the asynchronous model: building and the
`serial.write` call are synchronous, but the write outcome is not applied
here — the callback is recorded as pending and runs as its own event. -/
def processNextR (d : RState) : RState :=
  if d.processing then d
  else
    match d.queue with
    | [] => d
    | item :: rest =>
      match buildForItem item with
      | BuildResult.invalid =>
        { settleOnce { d with queue := rest } item.id Outcome.invalidItem with
            processing := false }
      | BuildResult.threw =>
        { settleOnce { d with queue := rest } item.id Outcome.rangeError with
            processing := false }
      | BuildResult.built _ =>
        { d with processing := true, writes := d.writes + 1,
                 pendingWrites := d.pendingWrites ++ [item.id] }

/-- The `serial.write` success handler for the write that captured item
`i`: arm the response timer with that item — even if it is no longer the
head (a stale timer). -/
def writeOkR (i : Nat) (d : RState) : RState :=
  if d.pendingWrites.contains i then
    { d with pendingWrites := d.pendingWrites.erase i, responseTimer := some i }
  else d

/-- The `serial.write` failure handler for the write that captured item
`i`: `queue.shift(); item.reject(err); processing = false`.  The shift is
unguarded — it removes whatever is at the head, while the reject targets
the captured item. -/
def writeErrR (i : Nat) (d : RState) : RState :=
  if d.pendingWrites.contains i then
    let d1 := { d with pendingWrites := d.pendingWrites.erase i,
                       queue := d.queue.tail }
    let d2 := settleOnce d1 i Outcome.writeFailed
    { d2 with processing := false }
  else d

/-- The response-timer callback, over `RState` (guarded by
`queue[0] === item`). -/
def fireTimerR (d : RState) : RState :=
  match d.responseTimer with
  | none => d
  | some tid =>
    let d1 := { d with responseTimer := none }
    let d2 :=
      match d1.queue with
      | item :: rest =>
        if item.id = tid then
          settleOnce { d1 with queue := rest } item.id Outcome.timeout
        else d1
      | [] => d1
    { d2 with processing := false }

/-- `enqueue(item)` over `RState`. -/
def enqueueItemR (t : ReqType) (channel payload : Option Nat) (d : RState) :
    RState :=
  { d with queue := d.queue ++ [⟨d.nextId, t, channel, payload⟩],
           nextId := d.nextId + 1 }

/-- Events of the asynchronous model: enqueue, a scheduled `processNext`,
the resolution or rejection of a pending write callback, the response
timer, and serial data. -/
inductive REv where
  | enq (t : ReqType) (channel payload : Option Nat)
  | proc
  | writeOk (i : Nat)
  | writeErr (i : Nat)
  | timer
  | rx (data : List Nat)

/-- One event transition of the asynchronous model. -/
def stepR (s : RSState) : REv → RSState
  | REv.enq t c p => ⟨enqueueItemR t c p s.dsp, s.readBuffer⟩
  | REv.proc => ⟨processNextR s.dsp, s.readBuffer⟩
  | REv.writeOk i => ⟨writeOkR i s.dsp, s.readBuffer⟩
  | REv.writeErr i => ⟨writeErrR i s.dsp, s.readBuffer⟩
  | REv.timer => ⟨fireTimerR s.dsp, s.readBuffer⟩
  | REv.rx data => onSerialDataR s data

/-- A run of the asynchronous model. -/
def runR (s : RSState) (evs : List REv) : RSState :=
  evs.foldl stepR s

/-- Initial state of the asynchronous model. -/
def initStateR : RSState := ⟨{}, []⟩

/-- C4: in the asynchronous model the FIFO/exactly-once settlement claim
fails.  Three `easy_info` requests 0, 1, 2 are enqueued.  Request 0 is
written (the write will fail); a spontaneous matching ack resolves 0
before the write callback runs; `processNext` then writes request 1;
now request 0's write-failure callback fires and its unguarded
`queue.shift()` removes request 1 without settling it (the reject of the
already-settled request 0 is a promise no-op).  Request 2 is enqueued,
request 1's own write succeeds and only arms a stale timer whose guarded
callback does nothing, and request 2 is then written and resolved by a
matching ack.  Final state: requests 0 and 2 settled, request 1 gone from
the queue with no pending callback or timer left — it never settles, while
the later-enqueued request 2 did. -/
theorem c4_write_failure_race :
    (runR initStateR
        [REv.enq ReqType.easy_info (some 1) none,
          REv.enq ReqType.easy_info (some 2) none,
          REv.proc,
          REv.rx (buildFrame 0x4d [0, 1, 2]),
          REv.proc,
          REv.writeErr 0,
          REv.enq ReqType.easy_info (some 3) none,
          REv.writeOk 1,
          REv.timer,
          REv.proc,
          REv.writeOk 2,
          REv.rx (buildFrame 0x4d [0, 4, 1])]).dsp.settled.map Prod.fst
        = [0, 2] ∧
      (runR initStateR
        [REv.enq ReqType.easy_info (some 1) none,
          REv.enq ReqType.easy_info (some 2) none,
          REv.proc,
          REv.rx (buildFrame 0x4d [0, 1, 2]),
          REv.proc,
          REv.writeErr 0,
          REv.enq ReqType.easy_info (some 3) none,
          REv.writeOk 1,
          REv.timer,
          REv.proc,
          REv.writeOk 2,
          REv.rx (buildFrame 0x4d [0, 4, 1])]).dsp.nextId = 3 ∧
      (runR initStateR
        [REv.enq ReqType.easy_info (some 1) none,
          REv.enq ReqType.easy_info (some 2) none,
          REv.proc,
          REv.rx (buildFrame 0x4d [0, 1, 2]),
          REv.proc,
          REv.writeErr 0,
          REv.enq ReqType.easy_info (some 3) none,
          REv.writeOk 1,
          REv.timer,
          REv.proc,
          REv.writeOk 2,
          REv.rx (buildFrame 0x4d [0, 4, 1])]).dsp.queue = [] ∧
      (runR initStateR
        [REv.enq ReqType.easy_info (some 1) none,
          REv.enq ReqType.easy_info (some 2) none,
          REv.proc,
          REv.rx (buildFrame 0x4d [0, 1, 2]),
          REv.proc,
          REv.writeErr 0,
          REv.enq ReqType.easy_info (some 3) none,
          REv.writeOk 1,
          REv.timer,
          REv.proc,
          REv.writeOk 2,
          REv.rx (buildFrame 0x4d [0, 4, 1])]).dsp.pendingWrites = [] ∧
      (runR initStateR
        [REv.enq ReqType.easy_info (some 1) none,
          REv.enq ReqType.easy_info (some 2) none,
          REv.proc,
          REv.rx (buildFrame 0x4d [0, 1, 2]),
          REv.proc,
          REv.writeErr 0,
          REv.enq ReqType.easy_info (some 3) none,
          REv.writeOk 1,
          REv.timer,
          REv.proc,
          REv.writeOk 2,
          REv.rx (buildFrame 0x4d [0, 4, 1])]).dsp.responseTimer = none := by
  decide

end Elero
